import Mathlib

/-!
Verification of the VINF web-scraper core

A shallow embedding, in Lean 4, of the core data model and operations of the
crawler / indexer / searcher pipeline:

* `modules/indexer_module.py` — tokenizer, index build, TF-IDF formulas;
* `modules/searcher_module.py` — scoring, ranking, result assembly;
* `modules/crawler_module.py` — frontier queue, queue reload, robots rules,
  the crawl loop and its checkpointing.

Conventions of the embedding:

* Python `dict`s (which preserve insertion order) are modelled as
  association lists with unique keys, looked up with `alookup`.
* Python `float` arithmetic is modelled over `ℚ`; the library call
  `math.log` is abstracted as an explicit function parameter `log : ℚ → ℚ`
  (the formulas proved here hold for every `log`, in particular for `ln`).
* File-system and HTTP effects are made explicit: file contents are lists
  of lines carried in the state, and the outcome of an HTTP fetch is an
  oracle `String → Option (List String)` giving, for a fetched URL, the
  list of link targets of the page after `urljoin` resolution and fragment
  stripping (`None` models a failed fetch).
-/

namespace WebScraper

/-! ## Association-list lookup (Python dict access) -/

/-- First-match lookup in an association list; models `d[k]` / `d.get(k)`. -/
def alookup {α β : Type} [DecidableEq α] : List (α × β) → α → Option β
  | [], _ => none
  | (k, v) :: l, a => if k = a then some v else alookup l a

theorem alookup_append {α β : Type} [DecidableEq α] (l₁ l₂ : List (α × β)) (a : α) :
    alookup (l₁ ++ l₂) a = (alookup l₁ a).orElse (fun _ => alookup l₂ a) := by
  induction l₁ with
  | nil => simp [alookup]
  | cons p l ih =>
    obtain ⟨k, v⟩ := p
    by_cases h : k = a <;> simp [alookup, h, ih]

theorem alookup_mem {α β : Type} [DecidableEq α] {l : List (α × β)} {a : α} {b : β}
    (h : alookup l a = some b) : (a, b) ∈ l := by
  induction l with
  | nil => simp [alookup] at h
  | cons p l ih =>
    obtain ⟨k, v⟩ := p
    by_cases hk : k = a
    · simp [alookup, hk] at h
      subst hk; subst h
      exact List.mem_cons_self _ _
    · simp [alookup, hk] at h
      exact List.mem_cons_of_mem _ (ih h)

/-! ## Tokenizer — `Indexer._tokenize` (indexer_module.py, lines 44–65)

The Python code lowercases the text, runs `re.sub with pattern `[^\w\s]` replacing by a space`
(every character that is neither a word character nor whitespace becomes a
space), splits on whitespace runs, and keeps tokens of length `> 2`.
We model the ASCII fragment of Python's `\w` and `\s` classes. -/

/-- Python regex `\w` (ASCII fragment): letters, digits, underscore. -/
def isPyWordChar (c : Char) : Bool := c.isAlphanum || c = '_'

/-- Python regex `\s` / `str.split()` whitespace (ASCII fragment). -/
def isPySpace (c : Char) : Bool :=
  c = ' ' || c = '\t' || c = '\n' || c = '\r' || c = '\x0b' || c = '\x0c'

/-- The substitution of the regex class `[^\w\s]` by a space applied to one
character:
characters that are neither word characters nor whitespace become `' '`. -/
def subNonWord (c : Char) : Char :=
  if isPyWordChar c || isPySpace c then c else ' '

/-- Accumulator-based splitting on whitespace runs, dropping empty pieces;
models Python `str.split()` with no arguments. -/
def splitWsAux : List Char → List Char → List (List Char)
  | [], acc => if acc.isEmpty then [] else [acc.reverse]
  | c :: cs, acc =>
    if isPySpace c then
      (if acc.isEmpty then splitWsAux cs [] else acc.reverse :: splitWsAux cs [])
    else splitWsAux cs (c :: acc)

/-- Python `str.split()` on a character list. -/
def pySplit (cs : List Char) : List (List Char) := splitWsAux cs []

/-- Embeds `Indexer._tokenize`: lowercase, substitute non-word non-space characters
by a space, split on whitespace, keep tokens of length `> 2`. -/
def tokenize (s : String) : List String :=
  ((pySplit ((s.toList.map Char.toLower).map subNonWord)).filter
    (fun t => decide (2 < t.length))).map (fun t => String.mk t)

/-- The tokenizer as worded by the specification: "lowercase; replace every
non-alphanumeric, non-underscore character with whitespace; split on
whitespace; drop tokens of length ≤ 2" (dropping length ≤ 2 = keeping
length > 2). -/
def tokenizeSpec (s : String) : List String :=
  ((pySplit ((s.toList.map Char.toLower).map
      (fun c => if c.isAlphanum || c = '_' then c else ' '))).filter
    (fun t => decide (2 < t.length))).map (fun t => String.mk t)

theorem splitWsAux_congr (f g : Char → Char)
    (h : ∀ c, f c = g c ∨ (isPySpace (f c) ∧ isPySpace (g c))) :
    ∀ (ds : List Char) (acc : List Char),
      splitWsAux (ds.map f) acc = splitWsAux (ds.map g) acc := by
  intro ds
  induction ds with
  | nil => intro acc; rfl
  | cons c cs ih =>
    intro acc
    rcases h c with heq | ⟨hf, hg⟩
    · simp only [List.map_cons, splitWsAux, heq]
      by_cases hsp : isPySpace (g c) <;> simp [hsp, ih]
    · simp only [List.map_cons, splitWsAux, hf, hg, if_pos]
      by_cases hacc : acc.isEmpty <;> simp [hacc, ih]

theorem tokenize_eq_tokenizeSpec (s : String) : tokenize s = tokenizeSpec s := by
  unfold tokenize tokenizeSpec pySplit
  rw [splitWsAux_congr subNonWord
    (fun c => if c.isAlphanum || c = '_' then c else ' ') ?_]
  intro c
  by_cases hw : (c.isAlphanum || c = '_') = true
  · left
    simp [subNonWord, isPyWordChar, hw]
  · by_cases hs : isPySpace c = true
    · right
      refine ⟨?_, ?_⟩
      · simp [subNonWord, isPyWordChar, hw, hs]
      · simp [hw, isPySpace]
    · left
      simp [subNonWord, isPyWordChar, hw, hs]

/-! ## Index data model — `Indexer` (indexer_module.py)

`Indexer` keeps five pieces of state built by `_build_index_from_csv`
(lines 67–120): the inverted index `{term: {doc_id: freq}}`, the document
metadata `{doc_id: row}`, the term-document-frequency table `{term: df}`,
the per-document lengths `{doc_id: total terms}`, and `total_docs`.
Python dicts preserve insertion order, so each is an association list. -/

/-- One CSV row as read by `csv.DictReader`: field name → value. -/
abbrev Record := List (String × String)

/-- The data structures of `Indexer` relevant to scoring and search. -/
structure IndexSnapshot where
  invertedIndex : List (String × List (Nat × Nat))
  docMetadata : List (Nat × Record)
  termDocFreq : List (String × Nat)
  docLengths : List (Nat × Nat)
  totalDocs : Nat
  deriving DecidableEq

/-- The field list `self.indexable_fields` (indexer_module.py, lines 41–42). -/
def indexableFields : List String :=
  ["name", "full_name", "description", "contry", "type", "status"]

/-- Models `doc_terms[token] += 1` on a `defaultdict(int)` modelled as an
insertion-ordered association list. -/
def bumpCount (l : List (String × Nat)) (t : String) : List (String × Nat) :=
  if (alookup l t).isSome then
    l.map (fun p => if p.1 = t then (p.1, p.2 + 1) else p)
  else l ++ [(t, 1)]

/-- The per-document term counts of one row: for each indexable field that
is present and non-empty, tokenize its value and accumulate counts
(lines 87–100).  The key set of the result also plays the role of the
`terms_in_doc` set, which holds exactly the tokens seen in this row. -/
def docTermCounts (row : Record) : List (String × Nat) :=
  indexableFields.foldl (fun acc field =>
    match alookup row field with
    | none => acc
    | some v => if v = "" then acc else (tokenize v).foldl bumpCount acc) []

/-- Models `self.inverted_index[term][doc_id] = freq` (line 104).  During a build
`doc_id` is fresh for every row, so the assignment always adds a new
posting at the end of the term's postings list. -/
def invInsert (inv : List (String × List (Nat × Nat))) (t : String) (d : Nat)
    (f : Nat) : List (String × List (Nat × Nat)) :=
  if (alookup inv t).isSome then
    inv.map (fun p => if p.1 = t then (p.1, p.2 ++ [(d, f)]) else p)
  else inv ++ [(t, [(d, f)])]

/-- Indexing one CSV row (the body of the `for row in reader` loop,
lines 82–113): store metadata, accumulate term counts over the indexable
fields, update the inverted index, document frequencies and lengths. -/
def indexRow (s : IndexSnapshot) (row : Record) : IndexSnapshot :=
  let docId := s.totalDocs
  let docTerms := docTermCounts row
  { invertedIndex := docTerms.foldl (fun inv p => invInsert inv p.1 docId p.2) s.invertedIndex
    docMetadata := s.docMetadata ++ [(docId, row)]
    termDocFreq := docTerms.foldl (fun tdf p => bumpCount tdf p.1) s.termDocFreq
    docLengths := s.docLengths ++ [(docId, (docTerms.map (fun p => p.2)).sum)]
    totalDocs := docId + 1 }

/-- The state of a fresh `Indexer` before any row is read. -/
def emptyIndex : IndexSnapshot := ⟨[], [], [], [], 0⟩

/-- Embeds `Indexer._build_index_from_csv` on an in-memory list of rows. -/
def buildIndex (rows : List Record) : IndexSnapshot :=
  rows.foldl indexRow emptyIndex

/-! ## TF-IDF — `Indexer.calculate_*` (indexer_module.py, lines 122–174)

Python floats are modelled over `ℚ`; `math.log` is an abstract parameter
`log : ℚ → ℚ`, so every theorem below holds for the natural logarithm. -/

/-- Models `self.term_doc_freq.get(term, 0)`. -/
def dfOf (idx : IndexSnapshot) (t : String) : Nat :=
  (alookup idx.termDocFreq t).getD 0

/-- Models the chained lookup `self.inverted_index.get(term).get(doc_id)`
with default 0 at each step (line 130). -/
def freqOf (idx : IndexSnapshot) (t : String) (d : Nat) : Nat :=
  (alookup ((alookup idx.invertedIndex t).getD []) d).getD 0

/-- Embeds `Indexer.calculate_tf` (lines 122–131). -/
def calculate_tf (idx : IndexSnapshot) (t : String) (d : Nat) : ℚ :=
  match alookup idx.docLengths d with
  | none => 0
  | some L => if L = 0 then 0 else (freqOf idx t d : ℚ) / (L : ℚ)

/-- Embeds `Indexer.calculate_idf_classic` (lines 133–144). -/
def calculate_idf_classic (log : ℚ → ℚ) (idx : IndexSnapshot) (t : String) : ℚ :=
  if dfOf idx t = 0 then 0 else log ((idx.totalDocs : ℚ) / (dfOf idx t : ℚ))

/-- Embeds `Indexer.calculate_idf_smooth` (lines 146–153). -/
def calculate_idf_smooth (log : ℚ → ℚ) (idx : IndexSnapshot) (t : String) : ℚ :=
  log (((idx.totalDocs : ℚ) + 1) / ((dfOf idx t : ℚ) + 1)) + 1

/-- Embeds `Indexer.calculate_tfidf` (lines 155–174): the product of TF with the
IDF selected by `idf_method` (`'smooth'` picks smooth, anything else
classic). -/
def calculate_tfidf (log : ℚ → ℚ) (idx : IndexSnapshot) (t : String) (d : Nat)
    (idfMethod : String) : ℚ :=
  calculate_tf idx t d *
    (if idfMethod = "smooth" then calculate_idf_smooth log idx t
     else calculate_idf_classic log idx t)

/-! ## Searcher — `Searcher.search` (searcher_module.py, lines 29–86) -/

/-- Models `doc_scores[doc_id] += v` on a `defaultdict(float)`: update in place if
the key exists, otherwise append it (Python dicts keep insertion order). -/
def addScore (sc : List (Nat × ℚ)) (d : Nat) (v : ℚ) : List (Nat × ℚ) :=
  if (alookup sc d).isSome then
    sc.map (fun p => if p.1 = d then (p.1, p.2 + v) else p)
  else sc ++ [(d, v)]

/-- The score-accumulation loop (lines 52–64): for each query term present
in the inverted index, add its TF-IDF to the score of every document in
the term's postings. -/
def searchScores (log : ℚ → ℚ) (idx : IndexSnapshot) (terms : List String)
    (idfMethod : String) : List (Nat × ℚ) :=
  terms.foldl (fun scores term =>
    match alookup idx.invertedIndex term with
    | none => scores
    | some postings =>
      postings.foldl
        (fun sc p => addScore sc p.1 (calculate_tfidf log idx term p.1 idfMethod))
        scores) []

/-- The comparison used by `sorted(doc_scores.items(), key=lambda x: x[1],
reverse=True)` (lines 71–72): descending score.  Python's `sorted` is
stable, and a stable sort under a total preorder is unique, so
`List.mergeSort` with this comparison computes exactly its result. -/
def scoreLe (a b : Nat × ℚ) : Bool := decide (b.2 ≤ a.2)

/-- The list `ranked_docs` (lines 71–72): the accumulated scores stably sorted by
descending score. -/
def searchRanked (log : ℚ → ℚ) (idx : IndexSnapshot) (terms : List String)
    (idfMethod : String) : List (Nat × ℚ) :=
  (searchScores log idx terms idfMethod).mergeSort scoreLe

/-- Embeds `Searcher.search` after query tokenization (lines 44–86): empty query
or no matching document returns `[]`; otherwise the top `topK` ranked
documents with their metadata (`doc_metadata[doc_id]`, a lookup that can
in principle miss, hence `Option`). -/
def searchCore (log : ℚ → ℚ) (idx : IndexSnapshot) (terms : List String)
    (idfMethod : String) (topK : Nat) : List (Nat × ℚ × Option Record) :=
  if terms = [] then []
  else if searchScores log idx terms idfMethod = [] then []
  else ((searchRanked log idx terms idfMethod).take topK).map
    (fun p => (p.1, p.2, alookup idx.docMetadata p.1))

/-- Embeds `Searcher.search` (lines 29–86): tokenize the query with the indexer's
tokenizer, then score, rank and truncate. -/
def search (log : ℚ → ℚ) (idx : IndexSnapshot) (query idfMethod : String)
    (topK : Nat) : List (Nat × ℚ × Option Record) :=
  searchCore log idx (tokenize query) idfMethod topK

/-! ## URL parsing — `urllib.parse.urlparse` on http(s)-style URLs

The crawler uses only the `scheme`, `netloc` and `path` components of
parsed URLs.  We model `urlparse` for strings of the shape
`scheme://host/path`; a string without `://` parses with empty scheme and
netloc and the whole string as path, which matches `urlparse` on relative
references and gives the same filtering outcome on non-http links
(anything with an empty or foreign netloc is dropped by the crawler). -/

structure UrlParts where
  scheme : String
  netloc : String
  path : String
  deriving DecidableEq

/-- Python `str.strip()`: remove leading and trailing whitespace. -/
def pyStrip (s : String) : String :=
  String.mk (((s.toList.dropWhile isPySpace).reverse.dropWhile isPySpace).reverse)

/-- Python `str.lower()` (ASCII fragment). -/
def strToLower (s : String) : String := String.mk (s.toList.map Char.toLower)

/-- Python `str.startswith(pre)`. -/
def pyStartsWith (s pre : String) : Bool := pre.toList.isPrefixOf s.toList

/-- Split a character list at the first occurrence of `sep`, returning the
parts before and after it; `none` when `sep` does not occur. -/
def splitAtSub : List Char → List Char → Option (List Char × List Char)
  | [], _ => none
  | c :: cs, sep =>
    if sep.isPrefixOf (c :: cs) then some ([], (c :: cs).drop sep.length)
    else
      match splitAtSub cs sep with
      | some (pre, post) => some (c :: pre, post)
      | none => none

def urlparse (s : String) : UrlParts :=
  match splitAtSub s.toList ("://".toList) with
  | none => ⟨"", "", s⟩
  | some (pre, post) =>
    ⟨String.mk pre, String.mk (post.takeWhile (fun c => c ≠ '/')),
      String.mk (post.dropWhile (fun c => c ≠ '/'))⟩

/-! ## Crawler — `Crawler` (crawler_module.py)

Constructor arguments and the robots-derived rules; `self.base_domain =
urlparse(base_url).netloc` (line 32). -/

structure CrawlConfig where
  baseUrl : String
  maxPages : Nat
  disallowedRoutes : List String

def baseDomain (cfg : CrawlConfig) : String := (urlparse cfg.baseUrl).netloc

/-- The disallow filter used at lines 237–243 and 286–291: does the URL's
path start with any disallowed route? -/
def isDisallowed (routes : List String) (u : String) : Bool :=
  routes.any (fun route => pyStartsWith (urlparse u).path route)

/-- Embeds `Crawler._find_relative_links` (lines 218–250) after href extraction:
`links` is the list of candidate URLs already resolved by
`urljoin(current_page_url, href).split('#')[0]`, in page order.  Each is
dropped unless its netloc equals the seed's domain and its path avoids the
disallowed routes, and is appended to the queue only when in neither the
visited set nor the queue. -/
def findRelativeLinks (cfg : CrawlConfig) (links : List String)
    (visited : List String) (queue0 : List String) : List String :=
  links.foldl (fun q absoluteUrl =>
    let parsed := urlparse absoluteUrl
    if parsed.netloc ≠ baseDomain cfg then q
    else if cfg.disallowedRoutes.any (fun route => pyStartsWith parsed.path route) then q
    else if absoluteUrl ∈ visited ∨ absoluteUrl ∈ q then q
    else q ++ [absoluteUrl]) queue0

/-- The durable artifacts a crawl session leaves behind: the queue
checkpoint file `download_queue.txt` (`none` when the file does not
exist) and the URLs recorded in the download log `download_log.csv`. -/
structure PersistedState where
  queueFile : Option (List String)
  downloadLog : List String

/-- In-memory crawler state during `run`, together with the file-backed
queue checkpoint and download log. -/
structure CrawlState where
  urlQueue : List String
  visitedUrls : List String
  pagesFetched : Nat
  savedQueue : List String
  downloadLog : List String
  deriving DecidableEq

/-- Embeds `Crawler._load_queue_from_file` (lines 74–86): each line is stripped
and appended unless blank, already in `self.visited_urls`, or already in
the queue. -/
def loadQueueFromFile (lines : List String) (visited : List String)
    (queue0 : List String) : List String :=
  lines.foldl (fun q line =>
    let url := pyStrip line
    if url ≠ "" ∧ url ∉ visited ∧ url ∉ q then q ++ [url] else q) queue0

/-- Embeds `Crawler.__init__` (lines 24–48) restricted to frontier state: the
visited set starts empty, the queue is reloaded from the checkpoint file
(if present) and seeded with `base_url` if still empty.  The persisted
download log is available in `ps` but the constructor never reads it. -/
def crawlerInit (baseUrl : String) (ps : PersistedState) : CrawlState :=
  let reloaded := match ps.queueFile with
    | none => []
    | some ls => loadQueueFromFile ls [] []
  { urlQueue := if reloaded = [] then [baseUrl] else reloaded
    visitedUrls := []
    pagesFetched := 0
    savedQueue := ps.queueFile.getD []
    downloadLog := ps.downloadLog }

/-- One iteration of the crawl loop in `Crawler.run` (lines 273–328).
`fetch u = some links` models a successful fetch whose page contains the
given resolved links; `none` models a fetch failure.  Page saving and log
writing are modelled as succeeding, so a successful fetch appends its URL
to the download log.  Note that the already-visited branch (lines
280–282) and the disallowed branch (lines 293–298) `continue` before the
checkpoint call `_save_queue_to_file()` at line 328, so they leave
`savedQueue` untouched. -/
def crawlStep (cfg : CrawlConfig) (fetch : String → Option (List String))
    (s : CrawlState) : CrawlState :=
  match s.urlQueue with
  | [] => s
  | u :: rest =>
    if u ∈ s.visitedUrls then { s with urlQueue := rest }
    else if isDisallowed cfg.disallowedRoutes u then
      { s with urlQueue := rest, visitedUrls := u :: s.visitedUrls }
    else
      match fetch u with
      | some links =>
        let visited := u :: s.visitedUrls
        let queue := findRelativeLinks cfg links visited rest
        { urlQueue := queue
          visitedUrls := visited
          pagesFetched := s.pagesFetched + 1
          savedQueue := queue
          downloadLog := s.downloadLog ++ [u] }
      | none =>
        { s with
          urlQueue := rest
          visitedUrls := u :: s.visitedUrls
          savedQueue := rest }

/-- The crawl loop `while self.url_queue and pages_fetched < self.max_pages`
(line 273), with explicit fuel bounding the number of iterations. -/
def crawlRun (cfg : CrawlConfig) (fetch : String → Option (List String)) :
    Nat → CrawlState → CrawlState
  | 0, s => s
  | fuel + 1, s =>
    if s.urlQueue = [] ∨ cfg.maxPages ≤ s.pagesFetched then s
    else crawlRun cfg fetch fuel (crawlStep cfg fetch s)

/-! ## Robots rules — `Crawler._load_robots` (crawler_module.py, lines 126–143)

`re.findall(r"^(Disallow:|Crawl-delay:)\s*(.*)$", block, re.MULTILINE)`
yields a list of `(rule_type, rule_value)` pairs from the `User-agent: *`
block; the loop at lines 130–140 folds over them.  We embed that loop,
taking the extracted rules as input. -/

/-- Digits to a natural number. -/
def digitsToNat (cs : List Char) : Nat :=
  cs.foldl (fun n c => n * 10 + (c.toNat - '0'.toNat)) 0

/-- An unsigned plain decimal literal `digits[.digits]`, needing at least
one digit; models the corresponding fragment of Python `float()`
(exponents, `inf` and `nan` are outside the crawler's robots inputs). -/
def parseDecimal (cs : List Char) : Option ℚ :=
  let intPart := cs.takeWhile Char.isDigit
  let rest := cs.dropWhile Char.isDigit
  match rest with
  | [] => if intPart.isEmpty then none else some (digitsToNat intPart : ℚ)
  | '.' :: frac =>
    if frac.all Char.isDigit && !(intPart.isEmpty && frac.isEmpty) then
      some ((digitsToNat intPart : ℚ) + (digitsToNat frac : ℚ) / (10 ^ frac.length : ℚ))
    else none
  | _ => none

/-- Python `float(s)` on an optionally signed plain decimal literal. -/
def parsePyFloat (s : String) : Option ℚ :=
  match s.toList with
  | '-' :: cs => (parseDecimal cs).map (fun q => -q)
  | '+' :: cs => parseDecimal cs
  | cs => parseDecimal cs

/-- Python `int(q)` on a float value: truncation toward zero. -/
def ratTrunc (q : ℚ) : Int := if 0 ≤ q then q.floor else -((-q).floor)

/-- The directive-processing loop of `_load_robots` (lines 130–140), from
the extracted `(rule_type, rule_value)` pairs and the current
`self.request_delay` and `self.disallowed_routes`:
`Crawl-delay` rules set `request_delay := int(float(value.strip()))`,
ignoring values `float()` rejects; other (`Disallow`) rules append their
stripped value to the routes when it is non-empty. -/
def processRules (rules : List (String × String)) (delay0 : Int)
    (routes0 : List String) : Int × List String :=
  rules.foldl (fun st rule =>
    if strToLower (pyStrip rule.1) = "crawl-delay:" then
      match parsePyFloat (pyStrip rule.2) with
      | some q => (ratTrunc q, st.2)
      | none => st
    else
      let val := pyStrip rule.2
      if val ≠ "" then (st.1, st.2 ++ [val]) else st) (delay0, routes0)

/-! ## C3 — tokenizer -/

/-- C3: for every input string, `tokenize` lowercases it, replaces every
non-alphanumeric, non-underscore character with whitespace, splits on
whitespace, and drops tokens of length ≤ 2 (first conjunct: `tokenize`
agrees everywhere with the function built from exactly those words); in
particular `tokenize "The Grand Canyon — USA!" = ["the", "grand",
"canyon", "usa"]` (second conjunct); and the Searcher applies this same
function, unmodified, to queries (third conjunct: `search` is the
core search applied to the tokenization of the query). -/
theorem tokenizer_c3 :
    (∀ s, tokenize s = tokenizeSpec s) ∧
    tokenize "The Grand Canyon — USA!" = ["the", "grand", "canyon", "usa"] ∧
    (∀ (log : ℚ → ℚ) (idx : IndexSnapshot) (q m : String) (k : Nat),
      search log idx q m k = searchCore log idx (tokenize q) m k) :=
  ⟨tokenize_eq_tokenizeSpec, by decide, fun _ _ _ _ _ => rfl⟩

/-! ## C4 — TF-IDF formulas -/

/-- C4: for every index, term and docId, `tf = freq / length` with value 0
when the document has zero indexed terms or is absent (first conjunct —
stated with total `ℚ` division, whose `x / 0 = 0` convention makes the
zero-length and missing-document cases part of the same equation);
`idfClassic = log (totalDocs / df)` and 0 when `df = 0` (second
conjunct); `idfSmooth = log ((totalDocs + 1) / (df + 1)) + 1` (third);
and `tfidf` is the product of `tf` with the selected IDF (fourth). -/
theorem tfidf_formulas_c4 (log : ℚ → ℚ) (idx : IndexSnapshot) (t : String)
    (d : Nat) (m : String) :
    calculate_tf idx t d
      = (freqOf idx t d : ℚ) / (((alookup idx.docLengths d).getD 0 : Nat) : ℚ) ∧
    calculate_idf_classic log idx t
      = (if dfOf idx t = 0 then 0
         else log ((idx.totalDocs : ℚ) / (dfOf idx t : ℚ))) ∧
    calculate_idf_smooth log idx t
      = log (((idx.totalDocs : ℚ) + 1) / ((dfOf idx t : ℚ) + 1)) + 1 ∧
    calculate_tfidf log idx t d m
      = calculate_tf idx t d *
        (if m = "smooth" then calculate_idf_smooth log idx t
         else calculate_idf_classic log idx t) := by
  refine ⟨?_, rfl, rfl, rfl⟩
  unfold calculate_tf
  cases h : alookup idx.docLengths d with
  | none => simp [h]
  | some L =>
    by_cases hL : L = 0 <;> simp [h, hL]

/-! ## C7 / C8 — robots directive processing -/

theorem processRules_cons (r : String × String) (rs : List (String × String))
    (d0 : Int) (r0 : List String) :
    processRules (r :: rs) d0 r0 =
      if strToLower (pyStrip r.1) = "crawl-delay:" then
        match parsePyFloat (pyStrip r.2) with
        | some q => processRules rs (ratTrunc q) r0
        | none => processRules rs d0 r0
      else if pyStrip r.2 ≠ "" then processRules rs d0 (r0 ++ [pyStrip r.2])
      else processRules rs d0 r0 := by
  by_cases h : strToLower (pyStrip r.1) = "crawl-delay:"
  · cases hp : parsePyFloat (pyStrip r.2) <;>
      simp [processRules, h, hp]
  · by_cases hv : pyStrip r.2 = "" <;>
      simp [processRules, h, hv]

/-- C7 (counterexample): with the `User-agent: *` block rules
`Disallow:  /a/`, `Disallow:` (empty value) and `Disallow: /a/` again, the
loop of `_load_robots` produces `["/a/", "/a/"]`: the empty value is NOT
appended (line 139, `if val:` skips it), contradicting the claim that
empty values are included. -/
theorem robots_disallow_c7_counterexample :
    (processRules [("Disallow:", " /a/"), ("Disallow:", ""), ("Disallow:", "/a/")]
        15 []).2 = ["/a/", "/a/"] ∧
    "" ∉ (processRules [("Disallow:", " /a/"), ("Disallow:", ""), ("Disallow:", "/a/")]
        15 []).2 := by decide

/-- C7 (amended): every `Disallow` value found in the block whose stripped
text is non-empty is appended (stripped) to `disallowedRoutes` in
encountered order, with duplicates kept (no de-duplication); values that
strip to the empty string are skipped. -/
theorem robots_disallow_c7 (rules : List (String × String)) (d0 : Int)
    (r0 : List String) :
    (processRules rules d0 r0).2 =
      r0 ++ rules.filterMap (fun rule =>
        if strToLower (pyStrip rule.1) ≠ "crawl-delay:" ∧ pyStrip rule.2 ≠ "" then
          some (pyStrip rule.2)
        else none) := by
  induction rules generalizing d0 r0 with
  | nil => simp [processRules]
  | cons r rs ih =>
    rw [processRules_cons]
    by_cases h : strToLower (pyStrip r.1) = "crawl-delay:"
    · cases hp : parsePyFloat (pyStrip r.2) <;>
        simp [h, hp, ih, List.filterMap_cons]
    · by_cases hv : pyStrip r.2 = "" <;>
        simp [h, hv, ih, List.filterMap_cons]

/-- C8 (counterexample): with directives `Crawl-delay: 7` then
`Crawl-delay: -3` and initial delay 15, `_load_robots` sets the delay to
`-3` — `int(float(v))` on `-3` succeeds, there is no non-negativity check — so
the last value parsing as a NON-NEGATIVE number (7) does not win,
contradicting the claim. -/
theorem crawl_delay_c8_counterexample :
    (processRules [("Crawl-delay:", "7"), ("Crawl-delay:", "-3")] 15 []).1 = -3 ∧
    (processRules [("Crawl-delay:", "7"), ("Crawl-delay:", "-3")] 15 []).1 < 0 ∧
    (processRules [("Crawl-delay:", "7"), ("Crawl-delay:", "-3")] 15 []).1 ≠ 7 := by
  decide

/-- C8 (amended): the final delay is the truncation toward zero
`int(float(v))` of the LAST `Crawl-delay` value that `float()` accepts —
including negative values — and the initial delay when no value parses;
values that fail to parse are skipped individually and do not abort the
processing of the remaining directives. -/
theorem lastParsed_cons (l : List ℚ) (x : ℚ) (d0 : Int) :
    (((x :: l).getLast?).map ratTrunc).getD d0 =
      ((l.getLast?).map ratTrunc).getD (ratTrunc x) := by
  induction l generalizing x d0 with
  | nil => rfl
  | cons a l ih =>
    rw [List.getLast?_cons_cons, ih a d0, ih a (ratTrunc x)]

theorem crawl_delay_c8 (rules : List (String × String)) (d0 : Int)
    (r0 : List String) :
    (processRules rules d0 r0).1 =
      (((rules.filterMap (fun rule =>
          if strToLower (pyStrip rule.1) = "crawl-delay:" then
            parsePyFloat (pyStrip rule.2)
          else none)).getLast?).map ratTrunc).getD d0 := by
  induction rules generalizing d0 r0 with
  | nil => simp [processRules]
  | cons r rs ih =>
    rw [processRules_cons]
    by_cases h : strToLower (pyStrip r.1) = "crawl-delay:"
    · cases hp : parsePyFloat (pyStrip r.2) with
      | none => simp [h, hp, ih, List.filterMap_cons]
      | some q =>
        simp only [h, if_pos, hp, List.filterMap_cons]
        rw [ih, lastParsed_cons]
    · by_cases hv : pyStrip r.2 = "" <;>
        simp [h, hv, ih, List.filterMap_cons]

/-! ## C1 — queue reload and resume -/

theorem loadQueueFromFile_cons (line : String) (ls : List String)
    (visited q : List String) :
    loadQueueFromFile (line :: ls) visited q =
      loadQueueFromFile ls visited
        (if pyStrip line ≠ "" ∧ pyStrip line ∉ visited ∧ pyStrip line ∉ q
         then q ++ [pyStrip line] else q) := rfl

theorem loadQueueFromFile_chr : ∀ (lines : List String) (q : List String),
    loadQueueFromFile lines [] q =
      ((lines.map pyStrip).filter (fun l => l ≠ "")).foldl
        (fun acc u => if u ∈ acc then acc else acc ++ [u]) q := by
  intro lines
  induction lines with
  | nil => intro q; rfl
  | cons line ls ih =>
    intro q
    rw [loadQueueFromFile_cons]
    by_cases h : pyStrip line = ""
    · simp [h, ih]
    · by_cases hq : pyStrip line ∈ q <;> simp [h, hq, ih]

/-- C1 (counterexample): a persisted state whose queue file and download
log both contain `https://x.com/a`.  `Crawler.__init__` reloads the queue
filtering only against the in-memory visited set — which is empty, since
the download log is never read — so the logged URL lands in the reloaded
queue (second conjunct), and a resumed crawl loop fetches it again,
appending it a second time to the download log (third conjunct).  This
contradicts both halves of the claim. -/
theorem resume_reload_c1_counterexample :
    "https://x.com/a" ∈
      (PersistedState.mk (some ["https://x.com/a"]) ["https://x.com/a"]).downloadLog ∧
    "https://x.com/a" ∈
      (crawlerInit "https://x.com"
        (PersistedState.mk (some ["https://x.com/a"]) ["https://x.com/a"])).urlQueue ∧
    (crawlRun (CrawlConfig.mk "https://x.com" 10 []) (fun _ => some []) 5
        (crawlerInit "https://x.com"
          (PersistedState.mk (some ["https://x.com/a"]) ["https://x.com/a"]))).downloadLog
      = ["https://x.com/a", "https://x.com/a"] := by decide

/-- C1 (amended): when the Crawler is initialized with an existing
persisted queue file, the reload filters only blank lines and duplicate
lines within the file against the in-memory visited set, which is empty
at initialization; the persisted download log is NOT consulted, so the
reloaded queue is independent of it (first conjunct) and a restarted
crawl can re-fetch a URL already recorded in the download log.  The
visited set starts empty (second conjunct), and the reloaded queue is
exactly the stripped, non-blank, first-occurrence-deduplicated lines of
the file (third conjunct). -/
theorem resume_reload_c1 (baseUrl : String) (ps ps' : PersistedState)
    (hq : ps.queueFile = ps'.queueFile) :
    (crawlerInit baseUrl ps).urlQueue = (crawlerInit baseUrl ps').urlQueue ∧
    (crawlerInit baseUrl ps).visitedUrls = [] ∧
    (∀ lines : List String, loadQueueFromFile lines [] [] =
      ((lines.map pyStrip).filter (fun l => l ≠ "")).foldl
        (fun acc u => if u ∈ acc then acc else acc ++ [u]) []) := by
  refine ⟨?_, rfl, fun lines => loadQueueFromFile_chr lines []⟩
  simp only [crawlerInit, hq]

theorem resume_reload_c1_witness :
    (crawlerInit "https://x.com"
        (PersistedState.mk (some ["https://x.com/u1"]) ["https://x.com/old"])).urlQueue =
      (crawlerInit "https://x.com"
        (PersistedState.mk (some ["https://x.com/u1"]) [])).urlQueue :=
  (resume_reload_c1 "https://x.com"
    (PersistedState.mk (some ["https://x.com/u1"]) ["https://x.com/old"])
    (PersistedState.mk (some ["https://x.com/u1"]) []) rfl).1

/-! ## C6 — checkpoint frequency -/

/-- C6 (counterexample): a crawl state whose head URL
`https://x.com/api/a` is disallowed (`/api/` is a disallowed route).  The
disallowed branch of the loop (lines 293–298) executes `continue` before
the checkpoint call at line 328, so after this URL is processed the
persisted queue file still holds the old two-line queue and differs from
the current queue — contradicting "the persisted queue file is
overwritten after every processed URL". -/
theorem checkpoint_c6_counterexample :
    (crawlStep (CrawlConfig.mk "https://x.com" 10 ["/api/"]) (fun _ => none)
        (CrawlState.mk ["https://x.com/api/a", "https://x.com/b"] [] 0
          ["https://x.com/api/a", "https://x.com/b"] [])).urlQueue
      = ["https://x.com/b"] ∧
    (crawlStep (CrawlConfig.mk "https://x.com" 10 ["/api/"]) (fun _ => none)
        (CrawlState.mk ["https://x.com/api/a", "https://x.com/b"] [] 0
          ["https://x.com/api/a", "https://x.com/b"] [])).savedQueue
      = ["https://x.com/api/a", "https://x.com/b"] ∧
    (crawlStep (CrawlConfig.mk "https://x.com" 10 ["/api/"]) (fun _ => none)
        (CrawlState.mk ["https://x.com/api/a", "https://x.com/b"] [] 0
          ["https://x.com/api/a", "https://x.com/b"] [])).savedQueue
      ≠ (crawlStep (CrawlConfig.mk "https://x.com" 10 ["/api/"]) (fun _ => none)
        (CrawlState.mk ["https://x.com/api/a", "https://x.com/b"] [] 0
          ["https://x.com/api/a", "https://x.com/b"] [])).urlQueue := by decide

/-- C6 (amended): the persisted queue file is overwritten with the current
queue contents after every FETCH ATTEMPT (successful or failed), but a
URL discarded as already-visited or as disallowed leaves the queue file
untouched (the two discard branches `continue` before the checkpoint
call), so after a discard the file can disagree with the in-memory
queue. -/
theorem checkpoint_c6 (cfg : CrawlConfig) (fetch : String → Option (List String))
    (s : CrawlState) (u : String) (rest : List String)
    (hq : s.urlQueue = u :: rest) :
    ((u ∉ s.visitedUrls ∧ isDisallowed cfg.disallowedRoutes u = false) →
      (crawlStep cfg fetch s).savedQueue = (crawlStep cfg fetch s).urlQueue) ∧
    ((u ∈ s.visitedUrls ∨ isDisallowed cfg.disallowedRoutes u = true) →
      (crawlStep cfg fetch s).savedQueue = s.savedQueue ∧
      (crawlStep cfg fetch s).urlQueue = rest) := by
  constructor
  · rintro ⟨hv, hd⟩
    cases hf : fetch u <;> simp [crawlStep, hq, hv, hd, hf]
  · intro h
    by_cases hv : u ∈ s.visitedUrls
    · simp [crawlStep, hq, hv]
    · rcases h with h | hd
      · exact absurd h hv
      · simp [crawlStep, hq, hv, hd]

theorem checkpoint_c6_witness :
    (crawlStep (CrawlConfig.mk "https://x.com" 10 []) (fun _ => some [])
        (CrawlState.mk ["https://x.com/a"] [] 0 [] [])).savedQueue =
      (crawlStep (CrawlConfig.mk "https://x.com" 10 []) (fun _ => some [])
        (CrawlState.mk ["https://x.com/a"] [] 0 [] [])).urlQueue :=
  (checkpoint_c6 (CrawlConfig.mk "https://x.com" 10 []) (fun _ => some [])
      (CrawlState.mk ["https://x.com/a"] [] 0 [] []) "https://x.com/a" [] rfl).1
    (by decide)

/-! ## C2 — frontier enqueue eligibility and deduplication -/

theorem findRelativeLinks_cons (cfg : CrawlConfig) (a : String)
    (ls : List String) (visited queue : List String) :
    findRelativeLinks cfg (a :: ls) visited queue =
      findRelativeLinks cfg ls visited
        (if (urlparse a).netloc ≠ baseDomain cfg then queue
         else if cfg.disallowedRoutes.any
             (fun route => pyStartsWith (urlparse a).path route) then queue
         else if a ∈ visited ∨ a ∈ queue then queue
         else queue ++ [a]) := rfl

theorem findRelativeLinks_aux (cfg : CrawlConfig) (visited : List String) :
    ∀ (links queue : List String), queue.Nodup → (∀ u ∈ queue, u ∉ visited) →
      (findRelativeLinks cfg links visited queue).Nodup ∧
      (∀ u ∈ findRelativeLinks cfg links visited queue, u ∉ visited) ∧
      (∀ u ∈ findRelativeLinks cfg links visited queue,
        u ∈ queue ∨
        ((urlparse u).netloc = baseDomain cfg ∧
         (∀ r ∈ cfg.disallowedRoutes, pyStartsWith (urlparse u).path r = false) ∧
         u ∉ visited)) := by
  intro links
  induction links with
  | nil =>
    intro queue h1 h2
    exact ⟨h1, h2, fun u hu => Or.inl hu⟩
  | cons a ls ih =>
    intro queue h1 h2
    rw [findRelativeLinks_cons]
    by_cases hn : (urlparse a).netloc ≠ baseDomain cfg
    · simpa [hn] using ih queue h1 h2
    · by_cases hd : cfg.disallowedRoutes.any
        (fun route => pyStartsWith (urlparse a).path route) = true
      · simpa [hn, hd] using ih queue h1 h2
      · by_cases hm : a ∈ visited ∨ a ∈ queue
        · simpa [hn, hd, hm] using ih queue h1 h2
        · push_neg at hm
          obtain ⟨hmv, hmq⟩ := hm
          have h1' : (queue ++ [a]).Nodup := by
            simp [List.nodup_append, h1, hmq]
          have h2' : ∀ u ∈ queue ++ [a], u ∉ visited := by
            intro u hu
            rcases List.mem_append.mp hu with h | h
            · exact h2 u h
            · simp only [List.mem_singleton] at h
              exact h ▸ hmv
          have goodA : (urlparse a).netloc = baseDomain cfg ∧
              (∀ r ∈ cfg.disallowedRoutes,
                pyStartsWith (urlparse a).path r = false) ∧
              a ∉ visited := by
            refine ⟨not_not.mp hn, ?_, hmv⟩
            intro r hr
            by_contra hc
            exact hd (List.any_eq_true.mpr
              ⟨r, hr, by simpa using hc⟩)
          obtain ⟨ih1, ih2, ih3⟩ := ih (queue ++ [a]) h1' h2'
          refine ⟨by simpa [hn, hd, hmv, hmq] using ih1,
            by simpa [hn, hd, hmv, hmq] using ih2, ?_⟩
          intro u hu
          have hu' : u ∈ findRelativeLinks cfg ls visited (queue ++ [a]) := by
            simpa [hn, hd, hmv, hmq] using hu
          rcases ih3 u hu' with h | h
          · rcases List.mem_append.mp h with h | h
            · exact Or.inl h
            · simp only [List.mem_singleton] at h
              exact Or.inr (h ▸ goodA)
          · exact Or.inr h

/-- C2 (counterexample): with seed `https://x.com` (scheme `https`), the
link `http://x.com/p` — same host, different scheme — passes the filter
of `_find_relative_links` and is appended to the queue, because the code
compares only `urlparse(...).netloc` against `self.base_domain` and never
compares schemes.  This contradicts the claim's "shares the seed's domain
(scheme+host match)" condition. -/
theorem frontier_enqueue_c2_counterexample :
    findRelativeLinks (CrawlConfig.mk "https://x.com" 10 [])
        ["http://x.com/p"] [] [] = ["http://x.com/p"] ∧
    (urlparse "http://x.com/p").scheme = "http" ∧
    (urlparse (CrawlConfig.mk "https://x.com" 10 []).baseUrl).scheme = "https" ∧
    ("http" : String) ≠ "https" := by decide

/-- C2 (amended): for any sequence of link-discovery enqueue attempts, a
URL is appended to the queue only if its parsed host (netloc) equals the
seed's host — the scheme is NOT compared, so it is absolute whenever the
seed has a non-empty host — its path starts with no disallowed route, and
it is in neither the visited set nor the queue; consequently the queue
never holds a URL twice and never holds a URL that is in the visited
set. -/
theorem frontier_enqueue_c2 (cfg : CrawlConfig) (links visited queue : List String)
    (h1 : queue.Nodup) (h2 : ∀ u ∈ queue, u ∉ visited) :
    (findRelativeLinks cfg links visited queue).Nodup ∧
    (∀ u ∈ findRelativeLinks cfg links visited queue, u ∉ visited) ∧
    (∀ u ∈ findRelativeLinks cfg links visited queue, u ∉ queue →
      ((urlparse u).netloc = baseDomain cfg ∧
       (baseDomain cfg ≠ "" → (urlparse u).netloc ≠ "") ∧
       (∀ r ∈ cfg.disallowedRoutes, pyStartsWith (urlparse u).path r = false) ∧
       u ∉ visited)) := by
  obtain ⟨hn, hv, hg⟩ := findRelativeLinks_aux cfg visited links queue h1 h2
  refine ⟨hn, hv, fun u hu hnq => ?_⟩
  rcases hg u hu with h | ⟨ha, hb, hc⟩
  · exact absurd h hnq
  · exact ⟨ha, fun hbd => by rw [ha]; exact hbd, hb, hc⟩

theorem frontier_enqueue_c2_witness :
    (findRelativeLinks (CrawlConfig.mk "https://x.com" 10 ["/api/"])
        ["https://x.com/ok"] [] []).Nodup :=
  (frontier_enqueue_c2 (CrawlConfig.mk "https://x.com" 10 ["/api/"])
    ["https://x.com/ok"] [] [] List.nodup_nil (by simp)).1

/-! ## C5 — result ordering -/

theorem scoreLe_trans : ∀ (a b c : Nat × ℚ), scoreLe a b → scoreLe b c → scoreLe a c := by
  intro a b c
  simp only [scoreLe, decide_eq_true_eq]
  exact fun h1 h2 => le_trans h2 h1

theorem scoreLe_total : ∀ (a b : Nat × ℚ), scoreLe a b || scoreLe b a := by
  intro a b
  simp only [scoreLe]
  rcases le_total a.2 b.2 with h | h <;> simp [h]

/-- C5 (counterexample): over the two-record corpus where doc 0 holds term
`bbb` and doc 1 holds term `aaa`, the query `aaa bbb` gives both
documents the same score, yet `search` returns doc 1 BEFORE doc 0: the
stable sort preserves the accumulation order of `doc_scores`, and doc 1
was reached first (by the first query term).  Two documents of identical
score thus appear in DESCENDING docId order, contradicting the tie-break
claim. -/
theorem ranking_order_c5_counterexample :
    (search (fun _ => 1) (buildIndex [[("name", "bbb")], [("name", "aaa")]])
        "aaa bbb" "classic" 10).map (fun r => (r.1, r.2.1))
      = [(1, 1), (0, 1)] ∧
    ¬ ((1 : Nat) ≤ 0) := by
  refine ⟨?_, by decide⟩
  have htok : tokenize "aaa bbb" = ["aaa", "bbb"] := by decide
  have hidx : buildIndex [[("name", "bbb")], [("name", "aaa")]] =
      IndexSnapshot.mk [("bbb", [(0, 1)]), ("aaa", [(1, 1)])]
        [(0, [("name", "bbb")]), (1, [("name", "aaa")])]
        [("bbb", 1), ("aaa", 1)] [(0, 1), (1, 1)] 2 := by decide
  have hsc : searchScores (fun _ => 1)
      (buildIndex [[("name", "bbb")], [("name", "aaa")]])
      ["aaa", "bbb"] "classic" = [(1, 1), (0, 1)] := by
    rw [hidx]
    simp [searchScores, alookup, addScore, calculate_tfidf, calculate_tf,
      calculate_idf_classic, calculate_idf_smooth, freqOf, dfOf]
  have hsorted : List.Pairwise (fun a b : Nat × ℚ => scoreLe a b)
      [(1, (1 : ℚ)), (0, 1)] := by
    simp [scoreLe]
  unfold search searchCore searchRanked
  rw [htok, hsc, List.mergeSort_of_sorted hsorted]
  rw [hidx]
  simp [alookup]

/-- C5 (amended): for every query, `search` returns documents sorted by
non-increasing score and returns at most `topK` results; but two
documents of identical score appear in the order in which they were FIRST
reached while accumulating scores (query-term order, then posting order)
— the stable sort preserves exactly that order within each score class
(third conjunct), which is ascending docId only within a single term's
postings, not globally. -/
theorem ranking_order_c5 (log : ℚ → ℚ) (idx : IndexSnapshot) (q m : String)
    (k : Nat) :
    List.Pairwise (fun a b : Nat × ℚ × Option Record => b.2.1 ≤ a.2.1)
      (search log idx q m k) ∧
    (search log idx q m k).length ≤ k ∧
    (∀ s : ℚ, (searchRanked log idx (tokenize q) m).filter (fun p => p.2 = s)
      = (searchScores log idx (tokenize q) m).filter (fun p => p.2 = s)) := by
  refine ⟨?_, ?_, ?_⟩
  · unfold search searchCore
    by_cases ht : tokenize q = []
    · simp [ht]
    · by_cases hs : searchScores log idx (tokenize q) m = []
      · simp [ht, hs]
      · simp only [ht, hs, if_neg, if_false]
        have hp : (searchRanked log idx (tokenize q) m).Pairwise
            (fun a b => scoreLe a b) :=
          List.sorted_mergeSort scoreLe_trans scoreLe_total _
        have hp2 := hp.sublist (List.take_sublist k _)
        rw [List.pairwise_map]
        exact hp2.imp (fun h => by
          simpa [scoreLe, decide_eq_true_eq] using h)
  · unfold search searchCore
    by_cases ht : tokenize q = []
    · simp [ht]
    · by_cases hs : searchScores log idx (tokenize q) m = []
      · simp [ht, hs]
      · simp only [ht, hs, if_neg, if_false, List.length_map, List.length_take]
        exact min_le_left _ _
  · intro s
    have hperm : List.Perm (searchRanked log idx (tokenize q) m)
        (searchScores log idx (tokenize q) m) :=
      List.mergeSort_perm _ scoreLe
    have hall : ∀ x ∈ (searchScores log idx (tokenize q) m).filter
        (fun p => decide (p.2 = s)), (fun p => decide (p.2 = s)) x = true := by
      intro x hx
      exact (List.mem_filter.mp hx).2
    have hc_pair : ((searchScores log idx (tokenize q) m).filter
        (fun p => decide (p.2 = s))).Pairwise (fun a b => scoreLe a b) := by
      apply List.pairwise_of_forall_mem_list
      intro a ha b hb
      have ha2 : a.2 = s := by simpa using (List.mem_filter.mp ha).2
      have hb2 : b.2 = s := by simpa using (List.mem_filter.mp hb).2
      simp [scoreLe, ha2, hb2]
    have h1 : List.Sublist ((searchScores log idx (tokenize q) m).filter
        (fun p => decide (p.2 = s))) (searchRanked log idx (tokenize q) m) :=
      List.sublist_mergeSort scoreLe_trans scoreLe_total hc_pair
        (List.filter_sublist _)
    have h2 : List.Sublist ((searchScores log idx (tokenize q) m).filter
        (fun p => decide (p.2 = s)))
        ((searchRanked log idx (tokenize q) m).filter (fun p => decide (p.2 = s))) := by
      have := h1.filter (fun p => decide (p.2 = s))
      rwa [List.filter_eq_self.mpr hall] at this
    have hlen : ((searchRanked log idx (tokenize q) m).filter
          (fun p => decide (p.2 = s))).length =
        ((searchScores log idx (tokenize q) m).filter
          (fun p => decide (p.2 = s))).length :=
      (hperm.filter _).length_eq
    exact (h2.eq_of_length hlen.symm).symm

/-! ## C9 — snapshot self-consistency -/

theorem alookup_isSome_append {α β : Type} [DecidableEq α]
    (l₁ l₂ : List (α × β)) (a : α) :
    (alookup (l₁ ++ l₂) a).isSome =
      ((alookup l₁ a).isSome || (alookup l₂ a).isSome) := by
  rw [alookup_append]
  cases alookup l₁ a <;> simp [Option.orElse]

theorem mem_alookup_isSome {α β : Type} [DecidableEq α] {l : List (α × β)}
    {a : α} {b : β} (h : (a, b) ∈ l) : (alookup l a).isSome = true := by
  induction l with
  | nil => simp at h
  | cons p l ih =>
    rcases List.mem_cons.mp h with h | h
    · subst h; simp [alookup]
    · by_cases hp : p.1 = a <;> simp [alookup, hp, ih h]

/-- The structural invariant maintained by the index build: every docId
mentioned in `docLengths` or in a posting is below `totalDocs`, and every
docId below `totalDocs` has metadata and a recorded length. -/
def SnapshotInv (s : IndexSnapshot) : Prop :=
  (∀ p ∈ s.docLengths, p.1 < s.totalDocs) ∧
  (∀ tp ∈ s.invertedIndex, ∀ pf ∈ tp.2, pf.1 < s.totalDocs) ∧
  (∀ d, d < s.totalDocs → (alookup s.docMetadata d).isSome = true) ∧
  (∀ d, d < s.totalDocs → (alookup s.docLengths d).isSome = true)

theorem invInsert_bound {inv : List (String × List (Nat × Nat))} {t : String}
    {d f n : Nat} (hb : ∀ tp ∈ inv, ∀ pf ∈ tp.2, pf.1 < n) (hd : d < n) :
    ∀ tp ∈ invInsert inv t d f, ∀ pf ∈ tp.2, pf.1 < n := by
  intro tp htp pf hpf
  unfold invInsert at htp
  by_cases hs : (alookup inv t).isSome
  · simp only [hs, if_pos] at htp
    obtain ⟨p, hp, heq⟩ := List.mem_map.mp htp
    by_cases hpt : p.1 = t
    · rw [if_pos hpt] at heq
      subst heq
      rcases List.mem_append.mp hpf with h | h
      · exact hb p hp pf h
      · simp only [List.mem_singleton] at h
        subst h; exact hd
    · rw [if_neg hpt] at heq
      subst heq
      exact hb p hp pf hpf
  · simp only [hs, if_neg, Bool.false_eq_true, not_false_iff] at htp
    rcases List.mem_append.mp htp with h | h
    · exact hb tp h pf hpf
    · simp only [List.mem_singleton] at h
      subst h
      simp only [List.mem_singleton] at hpf
      subst hpf; exact hd

theorem invFold_bound {n : Nat} :
    ∀ (docTerms : List (String × Nat)) (inv : List (String × List (Nat × Nat))),
      (∀ tp ∈ inv, ∀ pf ∈ tp.2, pf.1 < n + 1) →
      ∀ tp ∈ docTerms.foldl (fun inv p => invInsert inv p.1 n p.2) inv,
        ∀ pf ∈ tp.2, pf.1 < n + 1 := by
  intro docTerms
  induction docTerms with
  | nil => intro inv hb; exact hb
  | cons p ps ih =>
    intro inv hb
    exact ih _ (invInsert_bound hb (Nat.lt_succ_self n))

theorem indexRow_inv {s : IndexSnapshot} (h : SnapshotInv s) (row : Record) :
    SnapshotInv (indexRow s row) := by
  obtain ⟨hl, hi, hm, hlen⟩ := h
  refine ⟨?_, ?_, ?_, ?_⟩
  · intro p hp
    rcases List.mem_append.mp hp with h | h
    · exact Nat.lt_succ_of_lt (hl p h)
    · simp only [List.mem_singleton] at h
      subst h; exact Nat.lt_succ_self _
  · intro tp htp pf hpf
    exact invFold_bound _ _ (fun tp h pf hp => Nat.lt_succ_of_lt (hi tp h pf hp))
      tp htp pf hpf
  · intro d hd
    show (alookup (s.docMetadata ++ [(s.totalDocs, row)]) d).isSome = true
    rw [alookup_isSome_append]
    rcases Nat.lt_succ_iff_lt_or_eq.mp hd with h | h
    · simp [hm d h]
    · subst h; simp [alookup]
  · intro d hd
    show (alookup (s.docLengths ++
      [(s.totalDocs, ((docTermCounts row).map (fun p => p.2)).sum)]) d).isSome = true
    rw [alookup_isSome_append]
    rcases Nat.lt_succ_iff_lt_or_eq.mp hd with h | h
    · simp [hlen d h]
    · subst h; simp [alookup]

theorem buildIndex_inv (rows : List Record) : SnapshotInv (buildIndex rows) := by
  have haux : ∀ (rs : List Record) (s : IndexSnapshot),
      SnapshotInv s → SnapshotInv (rs.foldl indexRow s) := by
    intro rs
    induction rs with
    | nil => intro s h; exact h
    | cons r rs ih => intro s h; exact ih _ (indexRow_inv h r)
  refine haux rows emptyIndex ?_
  refine ⟨?_, ?_, ?_, ?_⟩ <;> intro a h <;> simp [emptyIndex] at h ⊢

theorem alookup_isSome_map_update (sc : List (Nat × ℚ)) (kk : Nat) (v : ℚ)
    (d : Nat) :
    (alookup (sc.map (fun p => if p.1 = kk then (p.1, p.2 + v) else p)) d).isSome =
      (alookup sc d).isSome := by
  induction sc with
  | nil => rfl
  | cons p l ih =>
    rw [List.map_cons]
    by_cases hp : p.1 = kk
    · rw [if_pos hp]
      by_cases hd : p.1 = d <;> simp [alookup, hd, ih]
    · rw [if_neg hp]
      by_cases hd : p.1 = d <;> simp [alookup, hd, ih]

theorem addScore_keys {sc : List (Nat × ℚ)} {kk : Nat} {v : ℚ} {d : Nat}
    (h : (alookup (addScore sc kk v) d).isSome = true) :
    (alookup sc d).isSome = true ∨ d = kk := by
  unfold addScore at h
  by_cases hs : (alookup sc kk).isSome
  · simp only [hs, if_pos] at h
    rw [alookup_isSome_map_update] at h
    exact Or.inl h
  · simp only [hs, Bool.false_eq_true, if_neg, not_false_iff] at h
    rw [alookup_isSome_append] at h
    rcases Bool.or_eq_true_iff.mp h with h | h
    · exact Or.inl h
    · right
      by_cases hkd : kk = d
      · exact hkd.symm
      · simp [alookup, hkd] at h

theorem postingFold_keys (log : ℚ → ℚ) (idx : IndexSnapshot) (t m : String) :
    ∀ (ps : List (Nat × Nat)) (sc : List (Nat × ℚ)) (d : Nat),
      (alookup (ps.foldl
        (fun sc p => addScore sc p.1 (calculate_tfidf log idx t p.1 m)) sc) d).isSome
        = true →
      (alookup sc d).isSome = true ∨ ∃ f, (d, f) ∈ ps := by
  intro ps
  induction ps with
  | nil => intro sc d h; exact Or.inl h
  | cons p ps ih =>
    intro sc d h
    rcases ih _ d h with h2 | ⟨f, hf⟩
    · rcases addScore_keys h2 with h3 | h3
      · exact Or.inl h3
      · exact Or.inr ⟨p.2, by rw [h3]; exact List.mem_cons_self _ _⟩
    · exact Or.inr ⟨f, List.mem_cons_of_mem _ hf⟩

theorem searchScores_keys (log : ℚ → ℚ) (idx : IndexSnapshot) (m : String) :
    ∀ (terms : List String) (sc : List (Nat × ℚ)) (d : Nat),
      (alookup (terms.foldl (fun scores term =>
        match alookup idx.invertedIndex term with
        | none => scores
        | some postings =>
          postings.foldl
            (fun sc p => addScore sc p.1 (calculate_tfidf log idx term p.1 m))
            scores) sc) d).isSome = true →
      (alookup sc d).isSome = true ∨
      ∃ t ps f, alookup idx.invertedIndex t = some ps ∧ (d, f) ∈ ps := by
  intro terms
  induction terms with
  | nil => intro sc d h; exact Or.inl h
  | cons t ts ih =>
    intro sc d h
    rw [List.foldl_cons] at h
    cases hl : alookup idx.invertedIndex t with
    | none =>
      simp only [hl] at h
      exact ih _ d h
    | some ps =>
      simp only [hl] at h
      rcases ih _ d h with h2 | h2
      · rcases postingFold_keys log idx t m ps sc d h2 with h3 | ⟨f, hf⟩
        · exact Or.inl h3
        · exact Or.inr ⟨t, ps, f, hl, hf⟩
      · exact Or.inr h2

/-- C9: for every index produced by the build step, every docId appearing
in `docLengths` (first conjunct) or in any inverted-index posting (second
conjunct) has an entry in the document-metadata map (and a recorded
document length), so the metadata lookup done by `search` when assembling
results never misses (third conjunct) and the `docLengths` lookup done by
`tf` on a posting's docId never misses (second conjunct). -/
theorem snapshot_consistency_c9 (rows : List Record) :
    (∀ p ∈ (buildIndex rows).docLengths,
      (alookup (buildIndex rows).docMetadata p.1).isSome = true) ∧
    (∀ tp ∈ (buildIndex rows).invertedIndex, ∀ pf ∈ tp.2,
      (alookup (buildIndex rows).docMetadata pf.1).isSome = true ∧
      (alookup (buildIndex rows).docLengths pf.1).isSome = true) ∧
    (∀ (log : ℚ → ℚ) (q m : String) (k : Nat),
      ∀ r ∈ search log (buildIndex rows) q m k, r.2.2.isSome = true) := by
  obtain ⟨hl, hi, hm, hlen⟩ := buildIndex_inv rows
  refine ⟨fun p hp => hm p.1 (hl p hp),
    fun tp htp pf hpf => ⟨hm pf.1 (hi tp htp pf hpf), hlen pf.1 (hi tp htp pf hpf)⟩,
    ?_⟩
  intro log q m k r hr
  unfold search searchCore at hr
  by_cases ht : tokenize q = []
  · rw [if_pos ht] at hr; simp at hr
  · rw [if_neg ht] at hr
    by_cases hs : searchScores log (buildIndex rows) (tokenize q) m = []
    · rw [if_pos hs] at hr; simp at hr
    · rw [if_neg hs] at hr
      obtain ⟨p, hp, heq⟩ := List.mem_map.mp hr
      have hp1 : p ∈ searchRanked log (buildIndex rows) (tokenize q) m :=
        List.mem_of_mem_take hp
      have hp2 : p ∈ searchScores log (buildIndex rows) (tokenize q) m := by
        rw [searchRanked] at hp1
        exact List.mem_mergeSort.mp hp1
      have hk : (alookup (searchScores log (buildIndex rows) (tokenize q) m)
          p.1).isSome = true :=
        mem_alookup_isSome (l := searchScores log (buildIndex rows) (tokenize q) m)
          (a := p.1) (b := p.2) (by simpa using hp2)
      rcases searchScores_keys log (buildIndex rows) m (tokenize q) [] p.1 hk with
        h | ⟨t, ps, f, hlk, hf⟩
      · simp [alookup] at h
      · have htp : (t, ps) ∈ (buildIndex rows).invertedIndex := alookup_mem hlk
        have hd : p.1 < (buildIndex rows).totalDocs := hi _ htp (p.1, f) hf
        subst heq
        simpa using hm p.1 hd

theorem snapshot_consistency_c9_witness :
    (alookup (buildIndex [[("name", "abc")]]).docMetadata 0).isSome = true ∧
    (alookup (buildIndex [[("name", "abc")]]).docLengths 0).isSome = true :=
  ⟨(snapshot_consistency_c9 [[("name", "abc")]]).1 (0, 1) (by decide),
   ((snapshot_consistency_c9 [[("name", "abc")]]).2.1 ("abc", [(0, 1)]) (by decide)
      (0, 1) (by decide)).2⟩

/-! ## C10 — zero-score documents are not filtered out -/

theorem alookup_map_update (sc : List (Nat × ℚ)) (kk : Nat) (v : ℚ) :
    alookup (sc.map (fun p => if p.1 = kk then (p.1, p.2 + v) else p)) kk =
      (alookup sc kk).map (fun x => x + v) := by
  induction sc with
  | nil => rfl
  | cons p l ih =>
    rw [List.map_cons]
    by_cases hp : p.1 = kk
    · rw [if_pos hp]; simp [alookup, hp]
    · rw [if_neg hp]; simp [alookup, hp, ih]

theorem alookup_map_update_ne (sc : List (Nat × ℚ)) (kk : Nat) (v : ℚ)
    (d : Nat) (h : d ≠ kk) :
    alookup (sc.map (fun p => if p.1 = kk then (p.1, p.2 + v) else p)) d =
      alookup sc d := by
  induction sc with
  | nil => rfl
  | cons p l ih =>
    rw [List.map_cons]
    by_cases hp : p.1 = kk
    · rw [if_pos hp]
      by_cases hd : p.1 = d
      · exact absurd (hd.symm.trans hp) h
      · simp [alookup, hd, ih]
    · rw [if_neg hp]
      by_cases hd : p.1 = d <;> simp [alookup, hd, ih]

theorem addScore_lookup_self (sc : List (Nat × ℚ)) (kk : Nat) (v : ℚ) :
    alookup (addScore sc kk v) kk = some ((alookup sc kk).getD 0 + v) := by
  unfold addScore
  by_cases hs : (alookup sc kk).isSome
  · rw [if_pos hs]
    obtain ⟨x, hx⟩ := Option.isSome_iff_exists.mp hs
    rw [alookup_map_update, hx]
    rfl
  · rw [if_neg hs]
    have hx : alookup sc kk = none := Option.not_isSome_iff_eq_none.mp hs
    rw [alookup_append, hx]
    simp [alookup, Option.orElse]

theorem addScore_lookup_ne (sc : List (Nat × ℚ)) (kk : Nat) (v : ℚ)
    (d : Nat) (h : d ≠ kk) :
    alookup (addScore sc kk v) d = alookup sc d := by
  unfold addScore
  by_cases hs : (alookup sc kk).isSome
  · rw [if_pos hs, alookup_map_update_ne _ _ _ _ h]
  · rw [if_neg hs, alookup_append]
    have hsingle : alookup [(kk, v)] d = none := by
      have hkd : ¬ kk = d := fun hh => h hh.symm
      simp [alookup, hkd]
    rw [hsingle]
    cases h2 : alookup sc d <;> simp [Option.orElse]

theorem postingFold_zero (log : ℚ → ℚ) (idx : IndexSnapshot) (t m : String)
    (d : Nat) :
    ∀ (ps : List (Nat × Nat)) (sc : List (Nat × ℚ)),
      ((∃ f, (d, f) ∈ ps) → calculate_tfidf log idx t d m = 0) →
      (alookup sc d = none ∨ alookup sc d = some 0) →
      ((alookup (ps.foldl
          (fun sc p => addScore sc p.1 (calculate_tfidf log idx t p.1 m)) sc) d
          = none ∨
        alookup (ps.foldl
          (fun sc p => addScore sc p.1 (calculate_tfidf log idx t p.1 m)) sc) d
          = some 0) ∧
       (alookup sc d = some 0 →
        alookup (ps.foldl
          (fun sc p => addScore sc p.1 (calculate_tfidf log idx t p.1 m)) sc) d
          = some 0) ∧
       ((∃ f, (d, f) ∈ ps) →
        alookup (ps.foldl
          (fun sc p => addScore sc p.1 (calculate_tfidf log idx t p.1 m)) sc) d
          = some 0)) := by
  intro ps
  induction ps with
  | nil =>
    intro sc hz hR
    exact ⟨hR, fun h => h, fun ⟨f, hf⟩ => absurd hf (by simp)⟩
  | cons p ps ih =>
    intro sc hz hR
    rw [List.foldl_cons]
    by_cases hp : p.1 = d
    · have hmem : (d, p.2) ∈ p :: ps := by
        rw [← hp]
        exact List.mem_cons_self _ _
      have hv : calculate_tfidf log idx t p.1 m = 0 := by
        rw [hp]; exact hz ⟨p.2, hmem⟩
      have hsc' : alookup (addScore sc p.1 (calculate_tfidf log idx t p.1 m)) d
          = some 0 := by
        rw [← hp] at hR ⊢
        rw [addScore_lookup_self, hv]
        rcases hR with h | h <;> rw [h] <;> simp
      obtain ⟨c1, c2, c3⟩ := ih (addScore sc p.1 (calculate_tfidf log idx t p.1 m))
        (fun ⟨f, hf⟩ => hz ⟨f, List.mem_cons_of_mem _ hf⟩) (Or.inr hsc')
      exact ⟨c1, fun _ => c2 hsc', fun _ => c2 hsc'⟩
    · have hsc' : alookup (addScore sc p.1 (calculate_tfidf log idx t p.1 m)) d
          = alookup sc d :=
        addScore_lookup_ne _ _ _ _ (fun hh => hp hh.symm)
      obtain ⟨c1, c2, c3⟩ := ih (addScore sc p.1 (calculate_tfidf log idx t p.1 m))
        (fun ⟨f, hf⟩ => hz ⟨f, List.mem_cons_of_mem _ hf⟩)
        (by rw [hsc']; exact hR)
      refine ⟨c1, fun h => c2 (by rw [hsc']; exact h), ?_⟩
      rintro ⟨f, hf⟩
      rcases List.mem_cons.mp hf with h | h
      · exact absurd (congrArg Prod.fst h).symm hp
      · exact c3 ⟨f, h⟩

theorem termsFold_zero (log : ℚ → ℚ) (idx : IndexSnapshot) (m : String) (d : Nat) :
    ∀ (terms : List String) (sc : List (Nat × ℚ)),
      (∀ t ∈ terms, ∀ ps, alookup idx.invertedIndex t = some ps →
        (∃ f, (d, f) ∈ ps) → calculate_tfidf log idx t d m = 0) →
      (alookup sc d = none ∨ alookup sc d = some 0) →
      ((alookup (terms.foldl (fun scores term =>
          match alookup idx.invertedIndex term with
          | none => scores
          | some postings =>
            postings.foldl
              (fun sc p => addScore sc p.1 (calculate_tfidf log idx term p.1 m))
              scores) sc) d = none ∨
        alookup (terms.foldl (fun scores term =>
          match alookup idx.invertedIndex term with
          | none => scores
          | some postings =>
            postings.foldl
              (fun sc p => addScore sc p.1 (calculate_tfidf log idx term p.1 m))
              scores) sc) d = some 0) ∧
       (alookup sc d = some 0 →
        alookup (terms.foldl (fun scores term =>
          match alookup idx.invertedIndex term with
          | none => scores
          | some postings =>
            postings.foldl
              (fun sc p => addScore sc p.1 (calculate_tfidf log idx term p.1 m))
              scores) sc) d = some 0) ∧
       ((∃ t ∈ terms, ∃ ps, alookup idx.invertedIndex t = some ps ∧
          ∃ f, (d, f) ∈ ps) →
        alookup (terms.foldl (fun scores term =>
          match alookup idx.invertedIndex term with
          | none => scores
          | some postings =>
            postings.foldl
              (fun sc p => addScore sc p.1 (calculate_tfidf log idx term p.1 m))
              scores) sc) d = some 0)) := by
  intro terms
  induction terms with
  | nil =>
    intro sc hz hR
    exact ⟨hR, fun h => h, fun ⟨t, ht, _⟩ => absurd ht (by simp)⟩
  | cons t ts ih =>
    intro sc hz hR
    rw [List.foldl_cons]
    cases hl : alookup idx.invertedIndex t with
    | none =>
      simp only [hl]
      obtain ⟨c1, c2, c3⟩ := ih sc
        (fun t' ht' => hz t' (List.mem_cons_of_mem _ ht')) hR
      refine ⟨c1, c2, ?_⟩
      rintro ⟨t', ht', ps', hps', hf'⟩
      rcases List.mem_cons.mp ht' with h | h
      · subst h
        rw [hl] at hps'
        exact absurd hps' (by simp)
      · exact c3 ⟨t', h, ps', hps', hf'⟩
    | some ps =>
      simp only [hl]
      have hzt : (∃ f, (d, f) ∈ ps) → calculate_tfidf log idx t d m = 0 :=
        fun hex => hz t (List.mem_cons_self _ _) ps hl hex
      obtain ⟨p1, p2, p3⟩ := postingFold_zero log idx t m d ps sc hzt hR
      obtain ⟨c1, c2, c3⟩ := ih _
        (fun t' ht' => hz t' (List.mem_cons_of_mem _ ht')) p1
      refine ⟨c1, fun h0 => c2 (p2 h0), ?_⟩
      rintro ⟨t', ht', ps', hps', hf'⟩
      rcases List.mem_cons.mp ht' with h | h
      · subst h
        rw [hl] at hps'
        have hps2 : ps' = ps := by
          injection hps'.symm
        subst hps2
        exact c2 (p3 hf')
      · exact c3 ⟨t', h, ps', hps', hf'⟩

/-- C10: under classic IDF, a document `d` that matches at least one query
term, all of whose matching query terms occur in every document
(`df = totalDocs`), accumulates total score 0 (first conjunct), and as
long as the matching documents fit in `topK`, `d` still appears in the
returned ranked results (second conjunct): `search` never filters
zero-score documents, only documents matching no query term. -/
theorem zero_score_c10 (log : ℚ → ℚ) (idx : IndexSnapshot) (q : String)
    (k : Nat) (d : Nat) (hlog : log 1 = 0)
    (hmatch : ∃ t ∈ tokenize q, ∃ ps,
      alookup idx.invertedIndex t = some ps ∧ ∃ f, (d, f) ∈ ps)
    (hall : ∀ t ∈ tokenize q, ∀ ps, alookup idx.invertedIndex t = some ps →
      (∃ f, (d, f) ∈ ps) → dfOf idx t = idx.totalDocs) :
    alookup (searchScores log idx (tokenize q) "classic") d = some 0 ∧
    ((searchScores log idx (tokenize q) "classic").length ≤ k →
      d ∈ (search log idx q "classic" k).map (fun r => r.1)) := by
  have hz : ∀ t ∈ tokenize q, ∀ ps, alookup idx.invertedIndex t = some ps →
      (∃ f, (d, f) ∈ ps) → calculate_tfidf log idx t d "classic" = 0 := by
    intro t ht ps hps hex
    have hdfN : dfOf idx t = idx.totalDocs := hall t ht ps hps hex
    have hidf : calculate_idf_classic log idx t = 0 := by
      unfold calculate_idf_classic
      by_cases h0 : dfOf idx t = 0
      · rw [if_pos h0]
      · have hN : idx.totalDocs ≠ 0 := by
          intro hc; rw [hc] at hdfN; exact h0 hdfN
        rw [if_neg h0, hdfN, div_self (Nat.cast_ne_zero.mpr hN), hlog]
    unfold calculate_tfidf
    rw [if_neg (by decide : ¬("classic" : String) = "smooth"), hidf, mul_zero]
  have hmain := termsFold_zero log idx "classic" d (tokenize q) [] hz (Or.inl rfl)
  have hsome : alookup (searchScores log idx (tokenize q) "classic") d = some 0 :=
    hmain.2.2 hmatch
  refine ⟨hsome, ?_⟩
  intro hlen
  have hmem : (d, (0 : ℚ)) ∈ searchScores log idx (tokenize q) "classic" :=
    alookup_mem hsome
  have ht : ¬ tokenize q = [] := by
    obtain ⟨t, ht, _⟩ := hmatch
    exact List.ne_nil_of_mem ht
  have hs : ¬ searchScores log idx (tokenize q) "classic" = [] := by
    intro h; rw [h] at hmem; simp at hmem
  unfold search searchCore
  rw [if_neg ht, if_neg hs]
  have htake : (searchRanked log idx (tokenize q) "classic").take k =
      searchRanked log idx (tokenize q) "classic" := by
    apply List.take_of_length_le
    rw [searchRanked, List.length_mergeSort]
    exact hlen
  rw [htake]
  have hmem2 : (d, (0 : ℚ)) ∈ searchRanked log idx (tokenize q) "classic" := by
    rw [searchRanked]
    exact List.mem_mergeSort.mpr hmem
  rw [List.map_map]
  exact List.mem_map.mpr ⟨(d, 0), hmem2, rfl⟩

theorem zero_score_c10_witness :
    alookup (searchScores (fun _ => 0)
      (buildIndex [[("name", "aaa")], [("name", "aaa")]])
      (tokenize "aaa") "classic") 0 = some 0 :=
  (zero_score_c10 (fun _ => 0) (buildIndex [[("name", "aaa")], [("name", "aaa")]])
    "aaa" 10 0 rfl
    ⟨"aaa", by decide, [(0, 1), (1, 1)], by decide, 1, by decide⟩
    (by
      intro t ht ps hps hex
      have htok : tokenize "aaa" = ["aaa"] := by decide
      rw [htok] at ht
      have ht' : t = "aaa" := by simpa using ht
      subst ht'
      decide)).1

end WebScraper
